import Mathlib

/-!
# Kamstrup Multical 402 meter protocol: a verification development

Shallow embedding of the protocol core of the `kamstrup-402-mqtt` repository
(`kamstrup_meter.py`): the CRC-16 checksum engine, the frame codec
(escape/de-escape, terminator handling), the register value decoder and the
per-cycle read loop.  Python byte values are modelled as `Nat` (every element
of a `bytearray` is `< 256`; hypotheses state this bound where a proof needs
it), fallible operations return `Option`, and the decoded measurement is
modelled as a rational number.
-/

set_option maxRecDepth 8000

namespace Kamstrup402

/-- One inner-loop iteration of `crc_1021` (kamstrup_meter.py lines 85-94):
shift the register left, shift in the current message bit, and reduce by the
polynomial when bit 16 got set. -/
def crc_1021_step (reg byte mask : Nat) : Nat :=
  let r1 := reg <<< 1
  let r2 := if byte &&& mask ≠ 0 then r1 ||| 1 else r1
  if r2 &&& 0x10000 ≠ 0 then (r2 &&& 0xFFFF) ^^^ 0x1021 else r2

/-- The successive values taken by `mask` in the inner `while mask > 0` loop
of `crc_1021`: `0x80` halved down to `0x01`. -/
def crc_masks : List Nat := [0x80, 0x40, 0x20, 0x10, 0x08, 0x04, 0x02, 0x01]

/-- Processing of one message byte by `crc_1021`: the inner while loop over
the eight masks. -/
def crc_1021_byte (reg byte : Nat) : Nat :=
  crc_masks.foldl (fun r mask => crc_1021_step r byte mask) reg

/-- `crc_1021` (kamstrup_meter.py lines 69-95): CCITT CRC-16, polynomial
`0x1021`, initial register `0x0000`, MSB first, no final XOR. -/
def crc_1021 (message : List Nat) : Nat :=
  message.foldl crc_1021_byte 0

/-- `ESCAPE_BYTES` (kamstrup_meter.py lines 99-105): the byte values that must
be escaped before transmission.  The Python dict maps each to `True`; only
membership of the key set is ever used. -/
def ESCAPE_BYTES : List Nat := [0x06, 0x0D, 0x1B, 0x40, 0x80]

/-- The per-byte escaping step of `Kamstrup.send` (kamstrup_meter.py lines
248-253), as the list of bytes appended to `command` for one message byte. -/
def escape_byte (byte : Nat) : List Nat :=
  if byte ∈ ESCAPE_BYTES then [0x1B, byte ^^^ 0xFF] else [byte]

/-- The escaping loop of `Kamstrup.send`: successive appends onto the
already-built command buffer. -/
def escape_fold (message command : List Nat) : List Nat :=
  message.foldl
    (fun cmd byte => if byte ∈ ESCAPE_BYTES then cmd ++ [0x1B, byte ^^^ 0xFF] else cmd ++ [byte])
    command

/-- `Kamstrup.send` (kamstrup_meter.py lines 224-257), as the byte frame
written to the serial port: append two zero placeholder bytes, compute the
CRC over the extended message, overwrite the placeholders with the big-endian
CRC, then emit the prefix byte, the escaped message and the `0x0D`
terminator. -/
def send_frame (pfx : Nat) (msg : List Nat) : List Nat :=
  let message := msg ++ [0, 0]
  let checksum := crc_1021 message
  let message2 := message.take (message.length - 2) ++ [checksum >>> 8, checksum &&& 0xFF]
  escape_fold message2 [pfx] ++ [0x0D]

/-- The de-escaping loop of `Kamstrup.recv` (kamstrup_meter.py lines 283-297):
`i` starts at 1 (skipping the start byte), runs while `i < len(msg) - 1`
(leaving the terminator), decodes `0x1B`-escapes by xor-ing the following byte
with `0xFF`, and takes other bytes literally.  The `i + 1 >= len(msg)`
incomplete-escape guard of the source is kept verbatim.  (The source also
logs a warning when a decoded escape value is not in `ESCAPE_BYTES`, but
still accepts it.) -/
def deescapeFrom (msg : List Nat) (i : Nat) : Option (List Nat) :=
  if _h : i < msg.length - 1 then
    if msg.getD i 0 = 0x1B then
      if i + 1 ≥ msg.length then none
      else
        match deescapeFrom msg (i + 2) with
        | none => none
        | some rest => some ((msg.getD (i + 1) 0 ^^^ 0xFF) :: rest)
    else
      match deescapeFrom msg (i + 1) with
      | none => none
      | some rest => some (msg.getD i 0 :: rest)
  else
    some []
termination_by msg.length - i
decreasing_by all_goals (simp_wf; omega)

/-- Structural restatement of the de-escaping loop, acting on the receive
buffer with its leading byte already dropped (so the final singleton, if any,
is the unprocessed terminator). -/
def deescapeAux : List Nat → Option (List Nat)
  | [] => some []
  | [_] => some []
  | b :: c :: rest =>
    if b = 0x1B then
      match deescapeAux rest with
      | none => none
      | some r => some ((c ^^^ 0xFF) :: r)
    else
      match deescapeAux (c :: rest) with
      | none => none
      | some r => some (b :: r)

/-- `Kamstrup.recv` (kamstrup_meter.py lines 262-305) after the read loop:
given the received buffer (first byte the start marker, last byte the `0x0D`
terminator), de-escape the interior, fail on a nonzero CRC over the
de-escaped bytes, and otherwise return them with the two CRC bytes
stripped. -/
def recv_decode (buf : List Nat) : Option (List Nat) :=
  match deescapeFrom buf 1 with
  | none => none
  | some filtered =>
    if crc_1021 filtered ≠ 0 then none
    else some (filtered.take (filtered.length - 2))

/-- `Kamstrup.readparameter` (kamstrup_meter.py lines 307-360), applied to an
already-received body: validate the response format (header `0x3F 0x10`,
echoed register address, minimal length, mantissa fits), then decode the
big-endian mantissa and the sign/exponent byte.  `math.pow(10, exponent)`
and the final `float` result are modelled exactly over `ℚ`. -/
def readparameter_decode (body : List Nat) (parameter : Nat) : Option ℚ :=
  if body.length < 4 ∨ body.getD 0 0 ≠ 0x3F ∨ body.getD 1 0 ≠ 0x10
      ∨ body.getD 2 0 ≠ parameter >>> 8 ∨ body.getD 3 0 ≠ parameter &&& 0xFF then
    none
  else if body.length < 7 then
    none
  else
    let mantissa_length := body.getD 5 0
    if body.length < 7 + mantissa_length then
      none
    else
      let value : Nat := (List.range mantissa_length).foldl
        (fun v i => (v <<< 8) ||| body.getD (i + 7) 0) 0
      let exponent_byte := body.getD 6 0
      let e0 : Int := (exponent_byte &&& 0x3F : Nat)
      let exponent : Int := if exponent_byte &&& 0x40 ≠ 0 then -e0 else e0
      let sf0 : ℚ := (10 : ℚ) ^ exponent
      let scale_factor : ℚ := if exponent_byte &&& 0x80 ≠ 0 then -sf0 else sf0
      some ((value : ℚ) * scale_factor)

/-- The receive-then-decode pipeline inside `Kamstrup.readparameter`: decode
the received buffer (CRC check included), then decode the register value.
The request side (`send`) has no influence on the returned value. -/
def readparameter_model (buf : List Nat) (parameter : Nat) : Option ℚ :=
  match recv_decode buf with
  | none => none
  | some body => readparameter_decode body parameter

/-- Big-endian base-256 value of a byte list (the specification reading of
the mantissa accumulation loop). -/
def bigEndian (l : List Nat) : Nat := l.foldl (fun a b => a * 256 + b) 0

/-- `KAMSTRUP_402_PARAMS` (kamstrup_meter.py lines 35-67): parameter name to
register address. -/
def KAMSTRUP_402_PARAMS : List (String × Nat) := [
  ("energy", 0x3C), ("power", 0x50), ("temp1", 0x56), ("temp2", 0x57),
  ("tempdiff", 0x59), ("flow", 0x4A), ("volume", 0x44),
  ("minflow_m", 0x8D), ("maxflow_m", 0x8B), ("minflowDate_m", 0x8C),
  ("maxflowDate_m", 0x8A), ("minpower_m", 0x91), ("maxpower_m", 0x8F),
  ("avgtemp1_m", 0x95), ("avgtemp2_m", 0x96), ("minpowerdate_m", 0x90),
  ("maxpowerdate_m", 0x8E), ("minflow_y", 0x7E), ("maxflow_y", 0x7C),
  ("minflowdate_y", 0x7D), ("maxflowdate_y", 0x7B), ("minpower_y", 0x82),
  ("maxpower_y", 0x80), ("avgtemp1_y", 0x92), ("avgtemp2_y", 0x93),
  ("minpowerdate_y", 0x81), ("maxpowerdate_y", 0x7F), ("temp1xm3", 0x61),
  ("temp2xm3", 0x6E), ("infoevent", 0x71), ("hourcounter", 0x3EC)]

/-- Outcome of one `readparameter` call as observed by `run`: a decoded
value, a `None` (read timeout, framing error, CRC failure or protocol
mismatch, all logged and swallowed inside `readparameter`), or a propagating
exception (`send` re-raises a serial write timeout; `run` has no handler for
it). -/
inductive ReadOutcome where
  | value (v : ℚ)
  | noValue
  | exception
deriving DecidableEq

/-- The `for parameter in self.parameters` loop of `Kamstrup.run`
(kamstrup_meter.py lines 176-182): returns the collected values, the list of
parameters actually attempted, and whether an exception escaped the loop. -/
def runLoop (readp : Nat → ReadOutcome) : List String → List (String × ℚ) × List String × Bool
  | [] => ([], [], false)
  | p :: rest =>
    match readp ((KAMSTRUP_402_PARAMS.lookup p).getD 0) with
    | .value v =>
      let r := runLoop readp rest
      ((p, v) :: r.1, p :: r.2.1, r.2.2)
    | .noValue =>
      let r := runLoop readp rest
      (r.1, p :: r.2.1, r.2.2)
    | .exception => ([], [p], true)

/-- Result of one `Kamstrup.run` read cycle. -/
structure RunResult where
  values : List (String × ℚ)
  attempted : List String
  raised : Bool
  portOpen : Bool

/-- `Kamstrup.run` (kamstrup_meter.py lines 158-188): close the port if it
was still open, open it, and if that succeeded run the per-parameter loop
inside `try ... finally self.close()`, so the port is closed again both when
the loop finishes and when an exception propagates out of it.  `readp` gives
the outcome of `readparameter` for each register address in this cycle,
`openOk` whether `self.open()` succeeds, `portOpen0` whether the port was
open when the cycle started. -/
def run (readp : Nat → ReadOutcome) (params : List String) (openOk portOpen0 : Bool) :
    RunResult :=
  let s1 := if portOpen0 then false else portOpen0
  if openOk then
    let r := runLoop readp params
    { values := r.1, attempted := r.2.1, raised := r.2.2, portOpen := false }
  else
    { values := [], attempted := [], raised := false, portOpen := s1 }

/-- A cycle in which reading register `0x3C` (energy) raises a write-timeout
exception and every other register decodes to 1. -/
def badOutcome : Nat → ReadOutcome :=
  fun code => if code = 0x3C then .exception else .value 1

/-- A cycle in which register `0x50` (power) times out on read (surfacing as
`None`) and every other register decodes to 3. -/
def okOutcome : Nat → ReadOutcome :=
  fun code => if code = 0x50 then .noValue else .value 3

section BitHelpers

/-- A conjunction with a power of two is nonzero exactly when the
corresponding bit is set. -/
theorem and_two_pow_ne_zero (w n : Nat) : w &&& 2 ^ n ≠ 0 ↔ w.testBit n = true := by
  rw [Nat.and_two_pow]
  cases h : w.testBit n <;> simp [Nat.pos_iff_ne_zero, Nat.pow_pos]

/-- A number below `2 ^ 17` whose bit 16 is clear is below `2 ^ 16`. -/
theorem lt_65536_of_testBit_false {w : Nat} (hlt : w < 131072)
    (hbit : w.testBit 16 = false) : w < 65536 := by
  rw [Nat.testBit_to_div_mod] at hbit
  have h1 : (2 : Nat) ^ 16 = 65536 := by norm_num
  rw [h1] at hbit
  simp only [decide_eq_false_iff_not] at hbit
  omega

/-- A conjunction with a power of two vanishes when the corresponding bit is
clear. -/
theorem and_two_pow_eq_zero {w n : Nat} (h : w.testBit n = false) : w &&& 2 ^ n = 0 := by
  rw [Nat.and_two_pow, h]
  simp

/-- Rotate the right operand of a double xor. -/
theorem xor_right_comm (a b c : Nat) : a ^^^ b ^^^ c = a ^^^ c ^^^ b := by
  rw [Nat.xor_assoc, Nat.xor_comm b c, ← Nat.xor_assoc]

/-- xor-ing the same value into both operands of an xor cancels out. -/
theorem xor_xor_cancel (a b c : Nat) : (a ^^^ c) ^^^ (b ^^^ c) = a ^^^ b := by
  apply Nat.eq_of_testBit_eq
  intro j
  simp only [Nat.testBit_xor]
  cases a.testBit j <;> cases b.testBit j <;> cases c.testBit j <;> rfl

/-- Masking a 17-bit value with bit 16 set down to 16 bits is the same as
clearing bit 16 by xor. -/
theorem and_mask_of_testBit_true {w : Nat} (hlt : w < 131072)
    (hbit : w.testBit 16 = true) : w &&& 65535 = w ^^^ 65536 := by
  have h1 : (65535 : Nat) = 2 ^ 16 - 1 := by norm_num
  have h2 : (65536 : Nat) = 2 ^ 16 := by norm_num
  rw [h1, h2]
  apply Nat.eq_of_testBit_eq
  intro j
  simp only [Nat.testBit_and, Nat.testBit_xor, Nat.testBit_two_pow_sub_one,
    Nat.testBit_two_pow]
  rcases lt_trichotomy j 16 with hj | hj | hj
  · have d1 : decide (j < 16) = true := by simp [hj]
    have d2 : decide (16 = j) = false := by simp; omega
    rw [d1, d2]
    cases w.testBit j <;> rfl
  · subst hj
    rw [hbit]
    decide
  · have hw : w < 2 ^ j := by
      calc w < 131072 := hlt
        _ = 2 ^ 17 := by norm_num
        _ ≤ 2 ^ j := Nat.pow_le_pow_right (by norm_num) (by omega)
    have d1 : decide (j < 16) = false := by simp; omega
    have d2 : decide (16 = j) = false := by simp; omega
    rw [d1, d2, Nat.testBit_lt_two_pow hw]
    decide

/-- Masking a value with bit 16 clear down to 16 bits does nothing. -/
theorem and_mask_of_testBit_false {w : Nat} (hlt : w < 131072)
    (hbit : w.testBit 16 = false) : w &&& 65535 = w := by
  have h1 : (65535 : Nat) = 2 ^ 16 - 1 := by norm_num
  rw [h1]
  exact Nat.and_pow_two_sub_one_of_lt_two_pow
    (by simpa using lt_65536_of_testBit_false hlt hbit)

/-- The polynomial reduction at the end of a `crc_1021` inner step is
GF(2)-linear on 17-bit values. -/
theorem reduce_xor {u v : Nat} (hu : u < 131072) (hv : v < 131072) :
    (if (u ^^^ v) &&& 0x10000 ≠ 0 then ((u ^^^ v) &&& 0xFFFF) ^^^ 0x1021 else u ^^^ v)
      = (if u &&& 0x10000 ≠ 0 then (u &&& 0xFFFF) ^^^ 0x1021 else u) ^^^
        (if v &&& 0x10000 ≠ 0 then (v &&& 0xFFFF) ^^^ 0x1021 else v) := by
  have hcond : ∀ w : Nat, (w &&& 0x10000 ≠ 0) ↔ (w.testBit 16 = true) := by
    intro w
    rw [show (0x10000 : Nat) = 2 ^ 16 by norm_num]
    exact and_two_pow_ne_zero w 16
  have hT : ∀ w : Nat, w.testBit 16 = true → w &&& 0x10000 ≠ 0 := fun w h => (hcond w).mpr h
  have hF : ∀ w : Nat, w.testBit 16 = false → ¬(w &&& 0x10000 ≠ 0) := by
    intro w h
    rw [hcond w, h]
    simp
  cases hu16 : u.testBit 16 <;> cases hv16 : v.testBit 16
  · have hx : (u ^^^ v).testBit 16 = false := by rw [Nat.testBit_xor, hu16, hv16]; rfl

    rw [if_neg (hF _ hx), if_neg (hF _ hu16), if_neg (hF _ hv16)]
  · have hx : (u ^^^ v).testBit 16 = true := by rw [Nat.testBit_xor, hu16, hv16]; rfl

    rw [if_pos (hT _ hx), if_neg (hF _ hu16), if_pos (hT _ hv16)]
    rw [show ((u ^^^ v) &&& 0xFFFF) = ((u &&& 0xFFFF) ^^^ (v &&& 0xFFFF)) from
      Nat.and_xor_distrib_right]
    rw [and_mask_of_testBit_false hu hu16, and_mask_of_testBit_true hv hv16]
    simp only [Nat.xor_assoc]
  · have hx : (u ^^^ v).testBit 16 = true := by rw [Nat.testBit_xor, hu16, hv16]; rfl

    rw [if_pos (hT _ hx), if_pos (hT _ hu16), if_neg (hF _ hv16)]
    rw [show ((u ^^^ v) &&& 0xFFFF) = ((u &&& 0xFFFF) ^^^ (v &&& 0xFFFF)) from
      Nat.and_xor_distrib_right]
    rw [and_mask_of_testBit_true hu hu16, and_mask_of_testBit_false hv hv16]
    exact xor_right_comm (u ^^^ 65536) v 0x1021
  · have hx : (u ^^^ v).testBit 16 = false := by rw [Nat.testBit_xor, hu16, hv16]; rfl

    rw [if_neg (hF _ hx), if_pos (hT _ hu16), if_pos (hT _ hv16)]
    rw [and_mask_of_testBit_true hu hu16, and_mask_of_testBit_true hv hv16]
    rw [xor_xor_cancel (u ^^^ 65536) (v ^^^ 65536) 0x1021, xor_xor_cancel u v 65536]

end BitHelpers

section CrcLinearity

/-- Unfolding of `crc_1021_step`. -/
theorem crc_1021_step_eq (reg byte mask : Nat) :
    crc_1021_step reg byte mask =
      (if (if byte &&& mask ≠ 0 then reg <<< 1 ||| 1 else reg <<< 1) &&& 0x10000 ≠ 0
       then ((if byte &&& mask ≠ 0 then reg <<< 1 ||| 1 else reg <<< 1) &&& 0xFFFF) ^^^ 0x1021
       else (if byte &&& mask ≠ 0 then reg <<< 1 ||| 1 else reg <<< 1)) := rfl

/-- xor of two 16-bit values is 16-bit. -/
theorem xor_lt_65536 {a b : Nat} (ha : a < 65536) (hb : b < 65536) : a ^^^ b < 65536 := by
  have h16 : (65536 : Nat) = 2 ^ 16 := by norm_num
  rw [h16] at ha hb ⊢
  exact Nat.xor_lt_two_pow ha hb

/-- The register after the shift-and-inject part of a `crc_1021` step fits in
17 bits when the incoming register fits in 16. -/
theorem inject_lt_131072 {reg : Nat} (byte mask : Nat) (h : reg < 65536) :
    (if byte &&& mask ≠ 0 then reg <<< 1 ||| 1 else reg <<< 1) < 131072 := by
  have hshift : reg <<< 1 = 2 * reg := by rw [Nat.shiftLeft_eq]; ring
  have h17 : (131072 : Nat) = 2 ^ 17 := by norm_num
  split
  · rw [h17]
    exact Nat.or_lt_two_pow (by rw [← h17, hshift]; omega) (by norm_num)
  · rw [hshift]; omega

/-- A failed bit-16 test means bit 16 really is clear. -/
theorem testBit16_false_of_cond {w : Nat} (h : ¬(w &&& 0x10000 ≠ 0)) :
    w.testBit 16 = false := by
  rw [not_not] at h
  cases hb : w.testBit 16
  · rfl
  · exfalso
    have h2 := (and_two_pow_ne_zero w 16).mpr hb
    rw [show (2 : Nat) ^ 16 = 0x10000 by norm_num] at h2
    exact h2 h

/-- A 16-bit register never trips the bit-16 test. -/
theorem cond_false_of_lt_65536 {w : Nat} (h : w < 65536) : ¬(w &&& 0x10000 ≠ 0) := by
  rw [not_not, show (0x10000 : Nat) = 2 ^ 16 by norm_num]
  exact and_two_pow_eq_zero
    (Nat.testBit_lt_two_pow (by rw [show (2 : Nat) ^ 16 = 65536 by norm_num]; exact h))

/-- `crc_1021_step` keeps the register inside 16 bits. -/
theorem crc_1021_step_lt (reg byte mask : Nat) (h : reg < 65536) :
    crc_1021_step reg byte mask < 65536 := by
  rw [crc_1021_step_eq]
  have hr2 := inject_lt_131072 byte mask h
  by_cases hcond : (if byte &&& mask ≠ 0 then reg <<< 1 ||| 1 else reg <<< 1) &&& 0x10000 ≠ 0
  · rw [if_pos hcond]
    exact xor_lt_65536 (lt_of_le_of_lt Nat.and_le_right (by norm_num)) (by norm_num)
  · rw [if_neg hcond]
    exact lt_65536_of_testBit_false hr2 (testBit16_false_of_cond hcond)

/-- The shift-and-inject part of a `crc_1021` step splits over xor: the bit
fed from the message byte can be accounted to either summand. -/
theorem shift_inject_xor (x y byte mask : Nat) :
    (if byte &&& mask ≠ 0 then (x ^^^ y) <<< 1 ||| 1 else (x ^^^ y) <<< 1)
      = (x <<< 1) ^^^ (if byte &&& mask ≠ 0 then y <<< 1 ||| 1 else y <<< 1) := by
  have hshift : (x ^^^ y) <<< 1 = (x <<< 1) ^^^ (y <<< 1) := by
    apply Nat.eq_of_testBit_eq
    intro j
    simp only [Nat.testBit_shiftLeft, Nat.testBit_xor]
    cases hd : decide (j ≥ 1) <;> simp
  by_cases hb : byte &&& mask ≠ 0
  · rw [if_pos hb, if_pos hb, hshift]
    apply Nat.eq_of_testBit_eq
    intro j
    simp only [Nat.testBit_or, Nat.testBit_xor, Nat.testBit_shiftLeft]
    cases j with
    | zero => simp
    | succ n =>
      have hbit1 : Nat.testBit 1 (n + 1) = false :=
        Nat.testBit_lt_two_pow (Nat.one_lt_two_pow (by omega))
      simp [hbit1]
  · rw [if_neg hb, if_neg hb, hshift]

/-- One `crc_1021` step is affine over GF(2): the register part and the
message-bit part can be processed separately and xor-ed. -/
theorem crc_1021_step_xor (x y byte mask : Nat) (hx : x < 65536) (hy : y < 65536) :
    crc_1021_step (x ^^^ y) byte mask = crc_1021_step x 0 mask ^^^ crc_1021_step y byte mask := by
  rw [crc_1021_step_eq, crc_1021_step_eq, crc_1021_step_eq]
  have hz : ¬((0 : Nat) &&& mask ≠ 0) := by simp
  rw [if_neg hz, shift_inject_xor x y byte mask]
  have hxlt : x <<< 1 < 131072 := by
    rw [Nat.shiftLeft_eq]
    have h1 : (2 : Nat) ^ 1 = 2 := by norm_num
    rw [h1]; omega
  exact reduce_xor hxlt (inject_lt_131072 byte mask hy)

/-- Folding `crc_1021` steps over any mask list keeps the register 16-bit. -/
theorem crc_fold_lt (masks : List Nat) (byte : Nat) :
    ∀ reg, reg < 65536 → masks.foldl (fun r mask => crc_1021_step r byte mask) reg < 65536 := by
  induction masks with
  | nil => intro reg h; exact h
  | cons m ms ih =>
    intro reg h
    exact ih _ (crc_1021_step_lt _ _ _ h)

/-- Folding `crc_1021` steps over any mask list is affine over GF(2). -/
theorem crc_fold_xor (masks : List Nat) (byte : Nat) :
    ∀ x y, x < 65536 → y < 65536 →
      masks.foldl (fun r mask => crc_1021_step r byte mask) (x ^^^ y)
        = masks.foldl (fun r mask => crc_1021_step r 0 mask) x ^^^
          masks.foldl (fun r mask => crc_1021_step r byte mask) y := by
  induction masks with
  | nil => intro x y hx hy; rfl
  | cons m ms ih =>
    intro x y hx hy
    simp only [List.foldl_cons]
    rw [crc_1021_step_xor x y byte m hx hy]
    exact ih _ _ (crc_1021_step_lt _ _ _ hx) (crc_1021_step_lt _ _ _ hy)

/-- `crc_1021_byte` keeps the register 16-bit. -/
theorem crc_1021_byte_lt (reg byte : Nat) (h : reg < 65536) :
    crc_1021_byte reg byte < 65536 :=
  crc_fold_lt crc_masks byte reg h

/-- `crc_1021_byte` is affine over GF(2). -/
theorem crc_1021_byte_xor (x y byte : Nat) (hx : x < 65536) (hy : y < 65536) :
    crc_1021_byte (x ^^^ y) byte = crc_1021_byte x 0 ^^^ crc_1021_byte y byte :=
  crc_fold_xor crc_masks byte x y hx hy

/-- Processing a zero byte just doubles the register once per mask, as long as
no overflow into bit 16 happens. -/
theorem crc_fold_zero_byte (masks : List Nat) :
    ∀ reg, reg * 2 ^ masks.length < 65536 →
      masks.foldl (fun r mask => crc_1021_step r 0 mask) reg = reg * 2 ^ masks.length := by
  induction masks with
  | nil => intro reg h; simp
  | cons m ms ih =>
    intro reg h
    have hlen : reg * 2 ^ (m :: ms).length = 2 * reg * 2 ^ ms.length := by
      rw [List.length_cons, pow_succ]
      ring
    have h2reg : 2 * reg < 65536 := by
      have hpow : (1 : Nat) ≤ 2 ^ ms.length := Nat.one_le_two_pow
      calc 2 * reg ≤ 2 * reg * 2 ^ ms.length := Nat.le_mul_of_pos_right _ (by omega)
        _ = reg * 2 ^ (m :: ms).length := hlen.symm
        _ < 65536 := h
    have hstep : crc_1021_step reg 0 m = 2 * reg := by
      rw [crc_1021_step_eq]
      have hz : ¬((0 : Nat) &&& m ≠ 0) := by simp
      rw [if_neg hz]
      have hshift : reg <<< 1 = 2 * reg := by rw [Nat.shiftLeft_eq]; ring
      rw [hshift, if_neg (cond_false_of_lt_65536 h2reg)]
    simp only [List.foldl_cons]
    rw [hstep, ih (2 * reg) (by rw [← hlen]; exact h), hlen]

set_option maxRecDepth 8000 in
/-- Feeding a byte into a zero register just loads the byte: the register
stays below `2 ^ 8` too long for a reduction to ever fire. -/
theorem crc_1021_byte_of_zero_reg : ∀ b, b < 256 → crc_1021_byte 0 b = b := by
  decide

/-- Processing a zero byte on a small register shifts it up by 8 bits. -/
theorem crc_1021_byte_zero_byte (reg : Nat) (h : reg < 256) :
    crc_1021_byte reg 0 = reg * 256 := by
  have hlen : crc_masks.length = 8 := rfl
  have h2 := crc_fold_zero_byte crc_masks reg (by rw [hlen]; norm_num; omega)
  rw [hlen] at h2
  norm_num at h2
  exact h2

end CrcLinearity

section CrcSelfVerify

/-- xor-ing a byte into the low 8 bits of a value with empty low bits is
ordinary addition. -/
theorem mul_256_xor_eq_add (a b : Nat) (hb : b < 256) : a * 256 ^^^ b = a * 256 + b := by
  have h8 : (256 : Nat) = 2 ^ 8 := by norm_num
  have hb8 : b < 2 ^ 8 := by rw [← h8]; exact hb
  rw [h8, Nat.mul_comm a (2 ^ 8)]
  apply Nat.eq_of_testBit_eq
  intro j
  rw [Nat.testBit_xor, Nat.testBit_mul_pow_two_add a hb8 j, Nat.testBit_mul_pow_two]
  by_cases hj : j < 8
  · have d1 : decide (j ≥ 8) = false := by simp; omega
    rw [if_pos hj, d1]
    cases b.testBit j <;> rfl
  · have hbj : b < 2 ^ j := lt_of_lt_of_le hb8 (Nat.pow_le_pow_right (by norm_num) (by omega))
    have d1 : decide (j ≥ 8) = true := by simp; omega
    rw [if_neg hj, d1, Nat.testBit_lt_two_pow hbj]
    cases a.testBit (j - 8) <;> rfl

/-- The `crc_1021` register always stays below `2 ^ 16`. -/
theorem crc_1021_lt (message : List Nat) : crc_1021 message < 65536 := by
  unfold crc_1021
  generalize h0 : (0 : Nat) = reg
  have hreg : reg < 65536 := by omega
  clear h0
  induction message generalizing reg with
  | nil => exact hreg
  | cons b bs ih => exact ih _ (crc_1021_byte_lt _ _ hreg)

/-- `crc_1021` of a message extended by two bytes: two more byte steps. -/
theorem crc_1021_append_two (A : List Nat) (x y : Nat) :
    crc_1021 (A ++ [x, y]) = crc_1021_byte (crc_1021_byte (crc_1021 A) x) y := by
  unfold crc_1021
  rw [List.foldl_append]
  rfl

/-- Core of the CRC verification property: appending the big-endian CRC of
`A ++ [0, 0]` to `A` produces a sequence whose CRC is zero. -/
theorem crc_append_crc_eq_zero (A : List Nat) :
    crc_1021 (A ++ [crc_1021 (A ++ [0, 0]) >>> 8, crc_1021 (A ++ [0, 0]) &&& 0xFF]) = 0 := by
  have hRlt : crc_1021 A < 65536 := crc_1021_lt A
  have hC : crc_1021 (A ++ [0, 0]) = crc_1021_byte (crc_1021_byte (crc_1021 A) 0) 0 :=
    crc_1021_append_two A 0 0
  have hClt : crc_1021 (A ++ [0, 0]) < 65536 := crc_1021_lt _
  have hh : crc_1021 (A ++ [0, 0]) >>> 8 = crc_1021 (A ++ [0, 0]) / 256 := by
    rw [Nat.shiftRight_eq_div_pow]
  have hl : crc_1021 (A ++ [0, 0]) &&& 0xFF = crc_1021 (A ++ [0, 0]) % 256 := by
    rw [show (0xFF : Nat) = 2 ^ 8 - 1 by norm_num, Nat.and_pow_two_sub_one_eq_mod]
  set C := crc_1021 (A ++ [0, 0]) with hCdef
  have hhlt : C / 256 < 256 := by omega
  have hllt : C % 256 < 256 := by omega
  rw [crc_1021_append_two, hh, hl]
  have s1 : crc_1021_byte (crc_1021 A) (C / 256)
      = crc_1021_byte (crc_1021 A) 0 ^^^ (C / 256) := by
    have h1 := crc_1021_byte_xor (crc_1021 A) 0 (C / 256) hRlt (by norm_num)
    rw [Nat.xor_zero] at h1
    rw [h1, crc_1021_byte_of_zero_reg _ hhlt]
  rw [s1]
  have s2 : crc_1021_byte (crc_1021_byte (crc_1021 A) 0 ^^^ (C / 256)) (C % 256)
      = crc_1021_byte (crc_1021_byte (crc_1021 A) 0) 0 ^^^ crc_1021_byte (C / 256) (C % 256) :=
    crc_1021_byte_xor _ _ _ (crc_1021_byte_lt _ _ hRlt) (by omega)
  rw [s2]
  have s3 : crc_1021_byte (C / 256) (C % 256) = (C / 256) * 256 ^^^ (C % 256) := by
    have h1 := crc_1021_byte_xor (C / 256) 0 (C % 256) (by omega) (by norm_num)
    rw [Nat.xor_zero] at h1
    rw [h1, crc_1021_byte_of_zero_reg _ hllt, crc_1021_byte_zero_byte _ hhlt]
  rw [s3, mul_256_xor_eq_add _ _ hllt, Nat.div_add_mod' C 256, ← hC]
  exact Nat.xor_self C

end CrcSelfVerify

section DeescapeEquivalence

/-- The index-based de-escaping loop equals its structural restatement on the
suffix starting at the loop index. -/
theorem deescapeFrom_eq_aux (msg : List Nat) (i : Nat) :
    deescapeFrom msg i = deescapeAux (msg.drop i) := by
  have key : ∀ n i, msg.length - i ≤ n → deescapeFrom msg i = deescapeAux (msg.drop i) := by
    intro n
    induction n with
    | zero =>
      intro i h
      have hge : msg.length ≤ i := by omega
      rw [deescapeFrom, dif_neg (by omega), List.drop_eq_nil_of_le hge]
      rfl
    | succ n ih =>
      intro i h
      rw [deescapeFrom]
      by_cases hi : i < msg.length - 1
      · have hi1 : i < msg.length := by omega
        have hi2 : i + 1 < msg.length := by omega
        have hdrop : msg.drop i = msg.getD i 0 :: msg.drop (i + 1) := by
          rw [List.drop_eq_getElem_cons hi1, List.getD_eq_getElem?_getD,
            List.getElem?_eq_getElem hi1]
          rfl
        have hdrop2 : msg.drop (i + 1) = msg.getD (i + 1) 0 :: msg.drop (i + 2) := by
          rw [List.drop_eq_getElem_cons hi2, List.getD_eq_getElem?_getD,
            List.getElem?_eq_getElem hi2]
          rfl
        rw [dif_pos hi, hdrop, hdrop2]
        by_cases hb : msg.getD i 0 = 0x1B
        · rw [if_pos hb, if_neg (by omega : ¬ i + 1 ≥ msg.length), ih (i + 2) (by omega)]
          rw [show deescapeAux (msg.getD i 0 :: msg.getD (i + 1) 0 :: msg.drop (i + 2))
              = if msg.getD i 0 = 0x1B then
                  (match deescapeAux (msg.drop (i + 2)) with
                   | none => none
                   | some r => some ((msg.getD (i + 1) 0 ^^^ 0xFF) :: r))
                else
                  (match deescapeAux (msg.getD (i + 1) 0 :: msg.drop (i + 2)) with
                   | none => none
                   | some r => some (msg.getD i 0 :: r)) from rfl]
          rw [if_pos hb]
        · rw [if_neg hb, ih (i + 1) (by omega)]
          rw [show deescapeAux (msg.getD i 0 :: msg.getD (i + 1) 0 :: msg.drop (i + 2))
              = if msg.getD i 0 = 0x1B then
                  (match deescapeAux (msg.drop (i + 2)) with
                   | none => none
                   | some r => some ((msg.getD (i + 1) 0 ^^^ 0xFF) :: r))
                else
                  (match deescapeAux (msg.getD (i + 1) 0 :: msg.drop (i + 2)) with
                   | none => none
                   | some r => some (msg.getD i 0 :: r)) from rfl]
          rw [if_neg hb, hdrop2]
      · rw [dif_neg hi]
        rcases hd : msg.drop i with _ | ⟨a, _ | ⟨b, t⟩⟩
        · rfl
        · rfl
        · exfalso
          have hlen := congrArg List.length hd
          rw [List.length_drop] at hlen
          simp at hlen
          omega
  exact key (msg.length - i) i (le_refl _)

end DeescapeEquivalence

section EscapeRoundTrip

/-- The escape loop of `send` appends the per-byte escapings of the message
to the command built so far. -/
theorem escape_fold_eq (message : List Nat) :
    ∀ command, escape_fold message command = command ++ message.flatMap escape_byte := by
  induction message with
  | nil => intro command; simp [escape_fold]
  | cons b rest ih =>
    intro command
    simp only [escape_fold, List.foldl_cons] at ih ⊢
    by_cases hb : b ∈ ESCAPE_BYTES
    · rw [if_pos hb, ih, List.flatMap_cons, escape_byte, if_pos hb, List.append_assoc]
    · rw [if_neg hb, ih, List.flatMap_cons, escape_byte, if_neg hb, List.append_assoc]

/-- Normal form of the frame built by `send`: prefix byte, escaped
CRC-extended message, terminator. -/
theorem send_frame_eq (pfx : Nat) (msg : List Nat) :
    send_frame pfx msg
      = pfx :: (msg ++ [crc_1021 (msg ++ [0, 0]) >>> 8,
          crc_1021 (msg ++ [0, 0]) &&& 0xFF]).flatMap escape_byte ++ [0x0D] := by
  have htake : (msg ++ [0, 0]).take ((msg ++ [0, 0]).length - 2) = msg := by
    rw [List.length_append]
    exact List.take_left' (by simp)
  have hdef : send_frame pfx msg
      = escape_fold ((msg ++ [0, 0]).take ((msg ++ [0, 0]).length - 2)
          ++ [crc_1021 (msg ++ [0, 0]) >>> 8, crc_1021 (msg ++ [0, 0]) &&& 0xFF]) [pfx]
        ++ [0x0D] := rfl
  rw [hdef, htake, escape_fold_eq]
  rfl

/-- Unfolding of `deescapeAux` on a list with at least two elements. -/
theorem deescapeAux_cons_cons (b c : Nat) (rest : List Nat) :
    deescapeAux (b :: c :: rest) =
      if b = 0x1B then
        match deescapeAux rest with
        | none => none
        | some r => some ((c ^^^ 0xFF) :: r)
      else
        match deescapeAux (c :: rest) with
        | none => none
        | some r => some (b :: r) := rfl

/-- De-escaping the escaped form of a body (followed by the terminator, which
the loop leaves untouched) restores the body exactly. -/
theorem deescapeAux_escape (body : List Nat) (t : Nat) :
    deescapeAux (body.flatMap escape_byte ++ [t]) = some body := by
  induction body with
  | nil => rfl
  | cons b rest ih =>
    by_cases hb : b ∈ ESCAPE_BYTES
    · rw [List.flatMap_cons, show escape_byte b = [0x1B, b ^^^ 0xFF] from by
        rw [escape_byte, if_pos hb]]
      simp only [List.cons_append, List.nil_append]
      rw [deescapeAux_cons_cons, if_pos rfl, ih]
      rw [show b ^^^ 0xFF ^^^ 0xFF = b from by rw [Nat.xor_assoc, Nat.xor_self, Nat.xor_zero]]
    · rw [List.flatMap_cons, show escape_byte b = [b] from by rw [escape_byte, if_neg hb]]
      simp only [List.cons_append, List.singleton_append, List.nil_append]
      have hbne : b ≠ 0x1B := fun he => hb (by rw [he]; decide)
      rcases hd : rest.flatMap escape_byte ++ [t] with _ | ⟨c, t2⟩
      · exact absurd hd (by simp)
      · rw [deescapeAux_cons_cons, if_neg hbne, ← hd, ih]

/-- The de-escape loop never fails: its incomplete-escape guard `i + 1 >=
len(msg)` can never hold inside a loop that requires `i < len(msg) - 1`. -/
theorem deescapeAux_isSome : ∀ l : List Nat, (deescapeAux l).isSome = true := by
  have key : ∀ n l, l.length ≤ n → (deescapeAux l).isSome = true := by
    intro n
    induction n with
    | zero =>
      intro l h
      have hnil : l = [] := List.eq_nil_of_length_eq_zero (by omega)
      subst hnil
      rfl
    | succ n ih =>
      intro l h
      match l with
      | [] => rfl
      | [a] => rfl
      | b :: c :: rest =>
        rw [deescapeAux_cons_cons]
        by_cases hb : b = 0x1B
        · rw [if_pos hb]
          have h2 := ih rest (by simp at h; omega)
          rcases hr : deescapeAux rest with _ | r
          · rw [hr] at h2
            simp at h2
          · rfl
        · rw [if_neg hb]
          have h2 := ih (c :: rest) (by simp at h ⊢; omega)
          rcases hr : deescapeAux (c :: rest) with _ | r
          · rw [hr] at h2
            simp at h2
          · rfl
  intro l
  exact key l.length l (le_refl _)

end EscapeRoundTrip

section DecoderLemmas

/-- Shifting a value up by one byte and or-ing a byte in is base-256
accumulation. -/
theorem shiftLeft8_or_eq (a b : Nat) (hb : b < 256) : (a <<< 8) ||| b = a * 256 + b := by
  have h8 : (256 : Nat) = 2 ^ 8 := by norm_num
  have hb8 : b < 2 ^ 8 := by rw [← h8]; exact hb
  rw [Nat.shiftLeft_eq, show (2 : Nat) ^ 8 = 256 from by norm_num,
    show a * 256 = 256 * a from Nat.mul_comm _ _, h8]
  exact (Nat.mul_add_lt_is_or hb8 a).symm

/-- The shift-or accumulation loop over a list of bytes is the base-256
accumulation loop. -/
theorem foldl_shiftOr (l : List Nat) : ∀ a, (∀ b ∈ l, b < 256) →
    l.foldl (fun v b => (v <<< 8) ||| b) a = l.foldl (fun v b => v * 256 + b) a := by
  induction l with
  | nil => intro a h; rfl
  | cons x xs ih =>
    intro a h
    simp only [List.foldl_cons]
    rw [shiftLeft8_or_eq a x (h x (by simp)), ih _ fun b hb => h b (by simp [hb])]

/-- Indexing into a dropped list. -/
theorem drop_getElem?_eq (l : List Nat) (s n : Nat) (h : s + n < l.length) :
    (l.drop s)[n]? = some (l.getD (s + n) 0) := by
  have hdn : n < (l.drop s).length := by rw [List.length_drop]; omega
  have hA : l.drop (s + n) = l[s + n] :: l.drop (s + n + 1) := List.drop_eq_getElem_cons h
  have hB : (l.drop s).drop n = (l.drop s)[n] :: (l.drop s).drop (n + 1) :=
    List.drop_eq_getElem_cons hdn
  rw [List.drop_drop, hA] at hB
  have hhead : l[s + n] = (l.drop s)[n] := by
    have h2 := congrArg List.head? hB
    simp only [List.head?_cons, Option.some_inj] at h2
    exact h2
  rw [List.getElem?_eq_getElem hdn, ← hhead, List.getD_eq_getElem?_getD,
    List.getElem?_eq_getElem h]
  rfl

/-- The index-based accumulation loop `for i in range(n): ... l[i + s]` is a
fold over the length-`n` slice of `l` starting at `s`. -/
theorem foldl_range_getD (l : List Nat) (s : Nat) (f : Nat → Nat → Nat) :
    ∀ (n : Nat) (a : Nat), s + n ≤ l.length →
      (List.range n).foldl (fun v i => f v (l.getD (i + s) 0)) a
        = ((l.drop s).take n).foldl f a := by
  intro n
  induction n with
  | zero => intro a h; rfl
  | succ n ih =>
    intro a h
    have hsn : s + n < l.length := by omega
    rw [List.range_succ, List.foldl_append, ih a (by omega), List.take_succ,
      drop_getElem?_eq l s n hsn, List.foldl_append]
    simp only [Option.toList_some, List.foldl_cons, List.foldl_nil]
    rw [Nat.add_comm n s]

end DecoderLemmas

section Claims

/-- C1: for every byte sequence `B` whose last two bytes equal the big-endian
CRC-16 (polynomial `0x1021`, initial register `0x0000`, MSB-first, no final
XOR) computed over `B` with those two bytes zeroed, applying `crc_1021` to
the full sequence `B` yields exactly 0. -/
theorem crc_1021_of_valid_trailing_crc (B : List Nat) (hlen : 2 ≤ B.length)
    (hvalid : B.drop (B.length - 2)
      = [crc_1021 (B.take (B.length - 2) ++ [0, 0]) >>> 8,
         crc_1021 (B.take (B.length - 2) ++ [0, 0]) &&& 0xFF]) :
    crc_1021 B = 0 := by
  conv_lhs => rw [← List.take_append_drop (B.length - 2) B]
  rw [hvalid]
  exact crc_append_crc_eq_zero _

/-- Witness for C1: the three-byte sequence `0x3F` plus its own CRC
`0xC7BC = 51132` really checksums to zero. -/
theorem crc_1021_of_valid_trailing_crc_witness :
    2 ≤ ([0x3F, 199, 188] : List Nat).length
      ∧ ([0x3F, 199, 188] : List Nat).drop (([0x3F, 199, 188] : List Nat).length - 2)
        = [crc_1021 (([0x3F, 199, 188] : List Nat).take
              (([0x3F, 199, 188] : List Nat).length - 2) ++ [0, 0]) >>> 8,
           crc_1021 (([0x3F, 199, 188] : List Nat).take
              (([0x3F, 199, 188] : List Nat).length - 2) ++ [0, 0]) &&& 0xFF]
      ∧ crc_1021 [0x3F, 199, 188] = 0 :=
  ⟨by decide, by decide, crc_1021_of_valid_trailing_crc [0x3F, 199, 188] (by decide) (by decide)⟩

/-- C2: the frame emitted by `send` is exactly the prefix byte unescaped,
then each byte of the body extended with its 2-byte big-endian CRC (computed
over the body plus two zero placeholder bytes) — escaped as `0x1B` plus its
complement when in the reserved set, kept verbatim otherwise — and a final
`0x0D` terminator. -/
theorem send_frame_spec (pfx : Nat) (msg : List Nat) :
    send_frame pfx msg
      = pfx :: (msg ++ [crc_1021 (msg ++ [0, 0]) >>> 8,
            crc_1021 (msg ++ [0, 0]) &&& 0xFF]).flatMap
            (fun byte => if byte ∈ ([0x06, 0x0D, 0x1B, 0x40, 0x80] : List Nat)
              then [0x1B, byte ^^^ 0xFF] else [byte])
        ++ [0x0D] := by
  rw [send_frame_eq]
  rfl

/-- C3: `recv` fails (returns `None`) exactly when `crc_1021` over the
de-escaped interior of the buffer is nonzero; otherwise it returns those
de-escaped bytes with the trailing two CRC bytes stripped, and it never
returns a payload that failed the CRC check. -/
theorem recv_decode_crc_gate (buf d : List Nat) (hd : deescapeFrom buf 1 = some d) :
    (crc_1021 d ≠ 0 → recv_decode buf = none)
      ∧ (crc_1021 d = 0 → recv_decode buf = some (d.take (d.length - 2)))
      ∧ ∀ out, recv_decode buf = some out →
          crc_1021 d = 0 ∧ out = d.take (d.length - 2) := by
  have hdef : recv_decode buf
      = if crc_1021 d ≠ 0 then none else some (d.take (d.length - 2)) := by
    unfold recv_decode
    rw [hd]
  refine ⟨?_, ?_, ?_⟩
  · intro hcrc
    rw [hdef, if_pos hcrc]
  · intro hcrc
    rw [hdef, if_neg (by simp [hcrc])]
  · intro out hout
    rw [hdef] at hout
    by_cases hcrc : crc_1021 d ≠ 0
    · rw [if_pos hcrc] at hout
      cases hout
    · rw [if_neg hcrc] at hout
      rw [not_not] at hcrc
      exact ⟨hcrc, (Option.some_inj.mp hout).symm⟩

/-- Witness for C3 at the buffer `[0x40, 0x0D]`: the de-escaped interior is
empty, its CRC is zero, and `recv` returns the empty payload. -/
theorem recv_decode_crc_gate_witness :
    deescapeFrom [0x40, 0x0D] 1 = some []
      ∧ ((crc_1021 [] ≠ 0 → recv_decode [0x40, 0x0D] = none)
          ∧ (crc_1021 [] = 0 → recv_decode [0x40, 0x0D]
              = some (List.take (([] : List Nat).length - 2) []))
          ∧ ∀ out, recv_decode [0x40, 0x0D] = some out →
              crc_1021 [] = 0 ∧ out = List.take (([] : List Nat).length - 2) []) :=
  ⟨by rw [deescapeFrom_eq_aux]; decide,
   recv_decode_crc_gate [0x40, 0x0D] [] (by rw [deescapeFrom_eq_aux]; decide)⟩

/-- C6: de-escaping (the `recv` loop, run on a buffer made of a start marker,
the escaped body and the terminator) undoes the escaping loop of `send` on
every body. -/
theorem escape_then_deescape_id (body : List Nat) :
    deescapeFrom (0x40 :: escape_fold body [] ++ [0x0D]) 1 = some body := by
  rw [deescapeFrom_eq_aux]
  simp only [List.drop_one, List.tail_cons]
  rw [escape_fold_eq body []]
  simp only [List.nil_append]
  exact deescapeAux_escape body 0x0D

/-- C7 (code bug): a buffer whose escape byte `0x1B` directly precedes the
terminator is NOT rejected by `recv`: the loop bound `i < len - 1` makes the
`i + 1 >= len` incomplete-escape guard unreachable, the terminator itself is
consumed as escape data (decoding to `0xF2`), and when the resulting bytes
happen to pass the CRC check a payload is returned.  The second conjunct
shows the guard is dead code on every buffer and index. -/
theorem recv_decode_incomplete_escape_accepted :
    recv_decode [0x40, 0xB9, 0x36, 0x1B, 0x0D] = some [0xB9]
      ∧ ∀ (msg : List Nat) (i : Nat), (deescapeFrom msg i).isSome = true := by
  constructor
  · unfold recv_decode
    rw [deescapeFrom_eq_aux]
    decide
  · intro msg i
    rw [deescapeFrom_eq_aux]
    exact deescapeAux_isSome _

/-- C9: whatever the outcomes of the individual parameter reads (including a
propagating exception) and whether or not the open succeeded, the serial
port is closed when `run` finishes. -/
theorem run_closes_port (readp : Nat → ReadOutcome) (params : List String)
    (openOk portOpen0 : Bool) :
    (run readp params openOk portOpen0).portOpen = false := by
  unfold run
  cases openOk <;> cases portOpen0 <;> rfl

/-- C10: in the frame produced by `send`, no byte strictly between the
leading prefix byte and the final terminator equals `0x0D` or `0x40`, and no
complement of a reserved byte is itself reserved. -/
theorem send_frame_interior_unambiguous (pfx : Nat) (msg : List Nat) :
    (∀ b ∈ ((send_frame pfx msg).drop 1).dropLast, b ≠ 0x0D ∧ b ≠ 0x40)
      ∧ ∀ b ∈ ESCAPE_BYTES, b ^^^ 0xFF ∉ ESCAPE_BYTES := by
  constructor
  · intro b hb
    rw [send_frame_eq] at hb
    simp only [List.cons_append, List.drop_one, List.tail_cons] at hb
    rw [List.dropLast_concat] at hb
    rw [List.mem_flatMap] at hb
    obtain ⟨a, _, hbin⟩ := hb
    by_cases ham : a ∈ ESCAPE_BYTES
    · rw [escape_byte, if_pos ham] at hbin
      simp only [List.mem_cons, List.mem_singleton, List.not_mem_nil, or_false] at hbin
      rcases hbin with hbin | hbin
      · subst hbin
        exact ⟨by decide, by decide⟩
      · subst hbin
        have ham2 : a = 0x06 ∨ a = 0x0D ∨ a = 0x1B ∨ a = 0x40 ∨ a = 0x80 := by
          simpa [ESCAPE_BYTES] using ham
        rcases ham2 with h | h | h | h | h <;> subst h <;> exact ⟨by decide, by decide⟩
    · rw [escape_byte, if_neg ham] at hbin
      simp only [List.mem_singleton] at hbin
      subst hbin
      refine ⟨fun he => ham ?_, fun he => ham ?_⟩
      · rw [he]; decide
      · rw [he]; decide
  · decide

end Claims

section DecodeHelpers

/-- A successfully decoded response always echoes the requested address in
bytes 2-3 (big-endian). -/
theorem decode_some_address (body : List Nat) (p : Nat) (v : ℚ)
    (h : readparameter_decode body p = some v) :
    body.getD 2 0 * 256 + body.getD 3 0 = p := by
  simp only [readparameter_decode] at h
  by_cases hc1 : body.length < 4 ∨ body.getD 0 0 ≠ 0x3F ∨ body.getD 1 0 ≠ 0x10
      ∨ body.getD 2 0 ≠ p >>> 8 ∨ body.getD 3 0 ≠ p &&& 0xFF
  · rw [if_pos hc1] at h
    cases h
  · push_neg at hc1
    obtain ⟨-, -, -, hc2, hc3⟩ := hc1
    rw [hc2, hc3, Nat.shiftRight_eq_div_pow,
      show (0xFF : Nat) = 2 ^ 8 - 1 by norm_num, Nat.and_pow_two_sub_one_eq_mod,
      show (2 : Nat) ^ 8 = 256 by norm_num]
    exact Nat.div_add_mod' p 256

/-- The per-parameter loop of `run`, when no read raises, attempts every
parameter and collects exactly the decoded ones. -/
theorem runLoop_no_exception (readp : Nat → ReadOutcome) :
    ∀ params : List String,
      (∀ p ∈ params, readp ((KAMSTRUP_402_PARAMS.lookup p).getD 0) ≠ .exception) →
      runLoop readp params
        = (params.filterMap (fun p =>
            match readp ((KAMSTRUP_402_PARAMS.lookup p).getD 0) with
            | .value v => some (p, v)
            | _ => none), params, false) := by
  intro params
  induction params with
  | nil => intro h; rfl
  | cons q rest ih =>
    intro h
    have hq := h q (by simp)
    have hrest := ih fun p hp => h p (by simp [hp])
    cases hc : readp ((KAMSTRUP_402_PARAMS.lookup q).getD 0) with
    | value v => simp [runLoop, hc, hrest, List.filterMap_cons]
    | noValue => simp [runLoop, hc, hrest, List.filterMap_cons]
    | exception => exact absurd hc hq

end DecodeHelpers

section MoreClaims

/-- C4: on a body passing all decoder preconditions, the decoded measurement
is the big-endian unsigned integer over `body[7..7+N)` (with `N = body[5]`)
times 10 to the exponent of magnitude `body[6] & 0x3F` (negative when
`body[6] & 0x40` is set), the product negated when `body[6] & 0x80` is
set. -/
theorem readparameter_decode_spec (body : List Nat) (p : Nat)
    (hbytes : ∀ b ∈ body, b < 256)
    (hlen : 7 ≤ body.length)
    (h0 : body.getD 0 0 = 0x3F) (h1 : body.getD 1 0 = 0x10)
    (h2 : body.getD 2 0 = p >>> 8) (h3 : body.getD 3 0 = p &&& 0xFF)
    (hN : 7 + body.getD 5 0 ≤ body.length) :
    readparameter_decode body p
      = some ((if body.getD 6 0 &&& 0x80 ≠ 0 then (-1 : ℚ) else 1)
          * (bigEndian ((body.drop 7).take (body.getD 5 0)) : ℚ)
          * (10 : ℚ) ^ (if body.getD 6 0 &&& 0x40 ≠ 0
              then -((body.getD 6 0 &&& 0x3F : Nat) : Int)
              else ((body.getD 6 0 &&& 0x3F : Nat) : Int))) := by
  simp only [readparameter_decode]
  rw [if_neg (by push_neg; exact ⟨by omega, h0, h1, h2, h3⟩)]
  rw [if_neg (by omega : ¬ body.length < 7)]
  rw [if_neg (by omega : ¬ body.length < 7 + body.getD 5 0)]
  have hval : (List.range (body.getD 5 0)).foldl
      (fun v i => (v <<< 8) ||| body.getD (i + 7) 0) 0
      = bigEndian ((body.drop 7).take (body.getD 5 0)) := by
    have hr := foldl_range_getD body 7 (fun v b => (v <<< 8) ||| b) (body.getD 5 0) 0 (by omega)
    rw [hr]
    exact foldl_shiftOr _ 0 fun b hb =>
      hbytes b (List.mem_of_mem_drop (List.mem_of_mem_take hb))
  rw [hval]
  by_cases h80 : body.getD 6 0 &&& 0x80 ≠ 0
  · rw [if_pos h80, if_pos h80]
    congr 1
    ring
  · rw [if_neg h80, if_neg h80]
    congr 1
    ring

/-- Witness for C4: a CRC-stripped response for register `0x56` with
mantissa `0x012C = 300` and exponent byte `0xC2` (negative sign, exponent
`-2`) decodes to `-1 * 300 * 10 ^ (-2) = -3`. -/
theorem readparameter_decode_spec_witness :
    readparameter_decode [0x3F, 0x10, 0x00, 0x56, 0x00, 0x02, 0xC2, 0x01, 0x2C] 0x56
      = some ((if (0xC2 : Nat) &&& 0x80 ≠ 0 then (-1 : ℚ) else 1)
          * (bigEndian [0x01, 0x2C] : ℚ)
          * (10 : ℚ) ^ (if (0xC2 : Nat) &&& 0x40 ≠ 0
              then -(((0xC2 : Nat) &&& 0x3F : Nat) : Int)
              else (((0xC2 : Nat) &&& 0x3F : Nat) : Int))) :=
  readparameter_decode_spec [0x3F, 0x10, 0x00, 0x56, 0x00, 0x02, 0xC2, 0x01, 0x2C] 0x56
    (by decide) (by decide) (by decide) (by decide) (by decide) (by decide) (by decide)

/-- C5: the decoder returns no value on any malformed or mismatched body
(too short for the header, wrong class byte, wrong subtype byte, echoed
address different from the requested one, or too short for the declared
mantissa); and through the receive pipeline a value is only produced from a
body whose de-escaped bytes passed the CRC check and whose echoed address
equals the requested address. -/
theorem readparameter_reject_spec (body buf : List Nat) (p : Nat) :
    (body.length < 7 → readparameter_decode body p = none)
      ∧ (body.getD 0 0 ≠ 0x3F → readparameter_decode body p = none)
      ∧ (body.getD 1 0 ≠ 0x10 → readparameter_decode body p = none)
      ∧ (body.getD 2 0 * 256 + body.getD 3 0 ≠ p → readparameter_decode body p = none)
      ∧ (body.length < 7 + body.getD 5 0 → readparameter_decode body p = none)
      ∧ ∀ v, readparameter_model buf p = some v →
          ∃ d, deescapeFrom buf 1 = some d ∧ crc_1021 d = 0
            ∧ (d.take (d.length - 2)).getD 2 0 * 256 + (d.take (d.length - 2)).getD 3 0 = p := by
  refine ⟨?_, ?_, ?_, ?_, ?_, ?_⟩
  · intro h
    simp only [readparameter_decode]
    by_cases hc1 : body.length < 4 ∨ body.getD 0 0 ≠ 0x3F ∨ body.getD 1 0 ≠ 0x10
        ∨ body.getD 2 0 ≠ p >>> 8 ∨ body.getD 3 0 ≠ p &&& 0xFF
    · rw [if_pos hc1]
    · rw [if_neg hc1, if_pos h]
  · intro h
    simp only [readparameter_decode]
    rw [if_pos (Or.inr (Or.inl h))]
  · intro h
    simp only [readparameter_decode]
    rw [if_pos (Or.inr (Or.inr (Or.inl h)))]
  · intro h
    have hcomp : body.getD 2 0 ≠ p >>> 8 ∨ body.getD 3 0 ≠ p &&& 0xFF := by
      by_contra hc
      push_neg at hc
      apply h
      rw [hc.1, hc.2, Nat.shiftRight_eq_div_pow,
        show (0xFF : Nat) = 2 ^ 8 - 1 by norm_num, Nat.and_pow_two_sub_one_eq_mod,
        show (2 : Nat) ^ 8 = 256 by norm_num]
      exact Nat.div_add_mod' p 256
    simp only [readparameter_decode]
    rcases hcomp with h2 | h3
    · rw [if_pos (Or.inr (Or.inr (Or.inr (Or.inl h2))))]
    · rw [if_pos (Or.inr (Or.inr (Or.inr (Or.inr h3))))]
  · intro h
    simp only [readparameter_decode]
    by_cases hc1 : body.length < 4 ∨ body.getD 0 0 ≠ 0x3F ∨ body.getD 1 0 ≠ 0x10
        ∨ body.getD 2 0 ≠ p >>> 8 ∨ body.getD 3 0 ≠ p &&& 0xFF
    · rw [if_pos hc1]
    · rw [if_neg hc1]
      by_cases hc2 : body.length < 7
      · rw [if_pos hc2]
      · rw [if_neg hc2, if_pos h]
  · intro v hv
    unfold readparameter_model at hv
    cases hd : deescapeFrom buf 1 with
    | none =>
      have hrecv : recv_decode buf = none := by
        unfold recv_decode
        rw [hd]
      rw [hrecv] at hv
      cases hv
    | some d =>
      have hdef : recv_decode buf
          = if crc_1021 d ≠ 0 then none else some (d.take (d.length - 2)) := by
        unfold recv_decode
        rw [hd]
      rw [hdef] at hv
      by_cases hcrc : crc_1021 d ≠ 0
      · rw [if_pos hcrc] at hv
        cases hv
      · rw [if_neg hcrc] at hv
        exact ⟨d, rfl, not_not.mp hcrc, decode_some_address _ p v hv⟩

/-- Witness for C5: a short body and an address-mismatched body are both
rejected. -/
theorem readparameter_reject_spec_witness :
    readparameter_decode [0x63] 0x56 = none
      ∧ readparameter_decode [0x3F, 0x10, 0x00, 0x57, 0x00, 0x02, 0x02, 0x01, 0x2C] 0x56
        = none :=
  ⟨(readparameter_reject_spec [0x63] [] 0x56).1 (by decide),
   (readparameter_reject_spec [0x3F, 0x10, 0x00, 0x57, 0x00, 0x02, 0x02, 0x01, 0x2C]
      [] 0x56).2.2.2.1 (by decide)⟩

/-- C8 counterexample: when reading the first parameter raises (the write
timeout re-raised by `send`), `run` raises too, the remaining parameter is
never attempted, and no values are returned — the claim that a read cycle
never raises for a single bad parameter is false on the code. -/
theorem run_raises_on_exception :
    (run badOutcome ["energy", "power"] true false).raised = true
      ∧ "power" ∉ (run badOutcome ["energy", "power"] true false).attempted
      ∧ (run badOutcome ["energy", "power"] true false).values = [] := by
  refine ⟨rfl, ?_, rfl⟩
  intro hmem
  have hatt : (run badOutcome ["energy", "power"] true false).attempted = ["energy"] := rfl
  rw [hatt] at hmem
  exact absurd hmem (by decide)

/-- C8 (amended): when no parameter read raises — read timeouts, framing
errors, CRC failures and protocol mismatches all surface as `None` — `run`
never raises, attempts every parameter, and returns exactly the cleanly
decoded ones; a propagating exception (write timeout) instead aborts the
cycle. -/
theorem run_no_exception_collects (readp : Nat → ReadOutcome) (params : List String)
    (portOpen0 : Bool)
    (hno : ∀ p ∈ params, readp ((KAMSTRUP_402_PARAMS.lookup p).getD 0) ≠ .exception) :
    (run readp params true portOpen0).raised = false
      ∧ (run readp params true portOpen0).attempted = params
      ∧ (run readp params true portOpen0).values
        = params.filterMap (fun p =>
            match readp ((KAMSTRUP_402_PARAMS.lookup p).getD 0) with
            | .value v => some (p, v)
            | _ => none) := by
  have hl := runLoop_no_exception readp params hno
  have hrun : run readp params true portOpen0
      = { values := (runLoop readp params).1,
          attempted := (runLoop readp params).2.1,
          raised := (runLoop readp params).2.2,
          portOpen := false } := rfl
  rw [hrun, hl]
  exact ⟨rfl, rfl, rfl⟩

/-- Witness for C8 (amended): with a read timeout on `power` and a clean
read of `energy`, the cycle does not raise, attempts both, and returns just
the energy value. -/
theorem run_no_exception_collects_witness :
    (run okOutcome ["energy", "power"] true false).raised = false
      ∧ (run okOutcome ["energy", "power"] true false).attempted = ["energy", "power"]
      ∧ (run okOutcome ["energy", "power"] true false).values
        = (["energy", "power"] : List String).filterMap (fun p =>
            match okOutcome ((KAMSTRUP_402_PARAMS.lookup p).getD 0) with
            | .value v => some (p, v)
            | _ => none) :=
  run_no_exception_collects okOutcome ["energy", "power"] false (by decide)

end MoreClaims

end Kamstrup402
